import Mathlib

/-!
Verification of the guidewire RAG copilot pipeline.

Python strings are modelled as lists of characters (`PyStr`), so `len`
is `List.length` and indexing/slicing are list operations.  The character
classes of the regexes in `document_processor.py` are modelled over the
ASCII fragment that the repository's documents use.  External services
(OpenAI embeddings / chat, the Qdrant server) are opaque collaborators in
the source; they are modelled as explicit oracle parameters, and the
qdrant client state as an explicit store value.
-/

abbrev PyStr := List Char

namespace RagCopilot

/-! ## document_processor.py -/

/-- Python `\s` (ASCII fragment): the whitespace class used by both
regexes in `document_processor.py`. -/
def isPySpace (c : Char) : Bool :=
  c = ' ' || c = '\t' || c = '\n' || c = '\r' || c = '\x0b' || c = '\x0c'

/-- Python `\w` (ASCII fragment): word characters of the allow-list in
`clean_text`. -/
def isWordChar (c : Char) : Bool :=
  c.isAlphanum || c = '_'

/-- The fixed punctuation set kept by `clean_text`'s second regex. -/
def punctKeep : List Char := ['.', ',', '!', '?', '-', ':', ';', '(', ')']

/-- A character survives `re.sub(r'[^\w\s\.\,\!\?\-\:\;\(\)]', '', ...)`. -/
def allowedChar (c : Char) : Bool :=
  isWordChar c || isPySpace c || punctKeep.contains c

/-- `re.sub(r'\s+', ' ', text)`: replace every maximal whitespace run by a
single space.  The Boolean argument records whether the previous character
was part of a whitespace run. -/
def collapseWSAux : Bool → List Char → List Char
  | _, [] => []
  | inRun, c :: rest =>
    if isPySpace c then
      if inRun then collapseWSAux true rest
      else ' ' :: collapseWSAux true rest
    else c :: collapseWSAux false rest

def collapseWS (l : List Char) : List Char := collapseWSAux false l

/-- Python `str.strip()`: drop leading and trailing whitespace. -/
def pyStrip (l : List Char) : List Char :=
  ((l.dropWhile isPySpace).reverse.dropWhile isPySpace).reverse

/-- `clean_text` of `document_processor.py`: collapse whitespace runs,
remove characters outside the allow-list, then strip.  Note the order:
collapsing happens before removal. -/
def clean_text (text : PyStr) : PyStr :=
  pyStrip ((collapseWS text).filter allowedChar)

/-- A sentence-ending character of the chunker's split regex `[.!?]`. -/
def isSentEnd (c : Char) : Bool := c = '.' || c = '!' || c = '?'

/-- `re.split(r'(?<=[.!?])\s+', text)`.  The scan keeps the accumulated
segment reversed in `acc`; the Boolean records whether we are inside a
separator (a whitespace run whose first character is preceded by `[.!?]`,
consumed greedily). -/
def splitSentAux : Bool → List Char → List Char → List (List Char)
  | _, acc, [] => [acc.reverse]
  | true, acc, c :: rest =>
    if isPySpace c then splitSentAux true acc rest
    else splitSentAux false (c :: acc) rest
  | false, acc, c :: rest =>
    if isPySpace c && isSentEnd (acc.headD 'x') then
      acc.reverse :: splitSentAux true [] rest
    else splitSentAux false (c :: acc) rest

def splitSentences (text : PyStr) : List PyStr := splitSentAux false [] text

/-- The space-separated join of the sentence list (Python's join with a
single-space separator). -/
def joinSp : List PyStr → PyStr
  | [] => []
  | [s] => s
  | s :: t :: rest => s ++ ' ' :: joinSp (t :: rest)

/-- Sum of the character lengths of a list of sentences (no separators). -/
def sumLens (l : List PyStr) : Nat := (l.map List.length).sum

/-- The overlap-selection loop of `chunk_by_sentences`: walk the closed
chunk's sentences from the back, keeping sentences while the accumulated
character count stays within `overlap`.  `acc` holds the kept sentences in
original order, `accLen` their accumulated length. -/
def ovGo (overlap : Int) (acc : List PyStr) (accLen : Int) :
    List PyStr → List PyStr × Int
  | [] => (acc, accLen)
  | s :: rest =>
    if accLen + (s.length : Int) ≤ overlap then
      ovGo overlap (s :: acc) (accLen + (s.length : Int)) rest
    else (acc, accLen)

/-- Overlap selection over a chunk's sentence list (`reversed(current_chunk)`
in the source). -/
def ovSel (overlap : Int) (cur : List PyStr) : List PyStr × Int :=
  ovGo overlap [] 0 cur.reverse

/-- The sentence loop of `chunk_by_sentences`: `chunks` are the closed
chunks, `cur` the sentences of the open chunk, `curLen` the running
`current_length`. -/
def chunkLoop (chunk_size overlap : Int) :
    List PyStr → List PyStr → List PyStr → Int → List PyStr
  | [], chunks, cur, _ =>
    if cur = [] then chunks else chunks ++ [joinSp cur]
  | s :: pend, chunks, cur, curLen =>
    if curLen + (s.length : Int) > chunk_size ∧ cur ≠ [] then
      let sel := ovSel overlap cur
      chunkLoop chunk_size overlap pend (chunks ++ [joinSp cur])
        (sel.1 ++ [s]) (sel.2 + (s.length : Int))
    else
      chunkLoop chunk_size overlap pend chunks (cur ++ [s])
        (curLen + (s.length : Int))

/-- `chunk_by_sentences` of `document_processor.py` (defaults in the
source: chunk_size 500, overlap 50). -/
def chunk_by_sentences (text : PyStr) (chunk_size overlap : Int) : List PyStr :=
  chunkLoop chunk_size overlap (splitSentences text) [] [] 0

/-- A chunk record built by `create_chunk_with_metadata`. -/
structure ChunkObj where
  text : PyStr
  source : String
  chunk_index : Nat
  length : Nat
  page_number : Option Nat
deriving DecidableEq

def create_chunk_with_metadata (chunk : PyStr) (source_file : String)
    (chunk_index : Nat) (page_number : Option Nat) : ChunkObj :=
  { text := chunk, source := source_file, chunk_index := chunk_index
    length := chunk.length, page_number := page_number }

/-! ## embedder.py

Embedding values are opaque to the code (it only builds the `[0.0] * 1536`
placeholder), so vectors are modelled over `ℚ`.  The OpenAI embedding
service is an external collaborator; a batch request either fails
(`batchOk` is false for that batch number) or succeeds and, per the
service contract, returns one vector per input text in input order
(`fBatch` applied to each text).  The per-item fallback request
`get_embedding` returns `some` vector or fails (`fItem`). -/

abbrev Emb := List ℚ

/-- The `[0.0] * 1536` placeholder of `get_embeddings_batch`. -/
def zeroVec : Emb := List.replicate 1536 0

/-- Per-item fallback of `get_embeddings_batch`: try `get_embedding`; on
failure substitute the zero-vector placeholder. -/
def embedItemFallback {α : Type} (fItem : α → Option Emb) (t : α) : Emb :=
  match fItem t with
  | some e => e
  | none => zeroVec

/-- The batch loop of `get_embeddings_batch`: slice off `batch_size` texts,
embed them by one batch request if it succeeds, otherwise per item with
zero-vector fallback, and recurse on the rest.  `bn` is the 0-based batch
number.  Defined only for positive `batch_size` (Python's `range` raises
`ValueError` on step 0). -/
def embBatches {α : Type} (batch_size : Nat) (batchOk : Nat → Bool)
    (fBatch : α → Emb) (fItem : α → Option Emb) : Nat → List α → List Emb
  | _, [] => []
  | bn, t :: ts =>
    if _h : batch_size = 0 then []
    else
      (if batchOk bn then ((t :: ts).take batch_size).map fBatch
       else ((t :: ts).take batch_size).map (embedItemFallback fItem)) ++
      embBatches batch_size batchOk fBatch fItem (bn + 1)
        ((t :: ts).drop batch_size)
  termination_by _ l => l.length
  decreasing_by simp [List.length_drop]; omega

/-- `get_embeddings_batch` of `embedder.py` (the api key is absorbed into
the service oracles). -/
def get_embeddings_batch {α : Type} (texts : List α) (batchOk : Nat → Bool)
    (fBatch : α → Emb) (fItem : α → Option Emb) (batch_size : Nat) : List Emb :=
  embBatches batch_size batchOk fBatch fItem 0 texts

/-! ## qdrant_utils.py

The Qdrant server is modelled as an explicit store value: a map from
collection names to collections.  `client.search` is server-side cosine
ranking, an external service, modelled as an oracle on the client. -/

/-- A stored payload: the keys that `upload_documents_with_metadata` or
other writers may set.  A key absent from the dict is `none`. -/
structure Payload where
  text : Option PyStr
  source : Option String
  chunk_index : Option Nat
  length : Option Nat
  page_number : Option Nat
deriving DecidableEq

structure QPoint where
  id : Nat
  vector : Emb
  payload : Payload
deriving DecidableEq

structure QCollection where
  vector_size : Nat
  points : List QPoint
deriving DecidableEq

def Store := String → Option QCollection

/-- A scored hit returned by the server for `client.search`. -/
structure ScoredPoint where
  payload : Payload
  score : ℚ
deriving DecidableEq

/-- The qdrant client: its server state plus the server-side search
ranking (collection name, query vector, limit ↦ scored hits). -/
structure QClient where
  store : Store
  searchFn : String → Emb → Nat → List ScoredPoint

/-- Errors a qdrant_utils call can raise to its caller. -/
inductive QErr where
  | keyError
deriving DecidableEq

/-- `collection_exists`: `get_collection` raises `UnexpectedResponse` for a
missing collection, which is caught and mapped to `False`. -/
def collection_exists (client : QClient) (collection_name : String) : Bool :=
  (client.store collection_name).isSome

/-- `create_collection`: destructive — deletes an existing collection of
that name, then creates a fresh empty one with the given vector size. -/
def create_collection (client : QClient) (collection_name : String)
    (vector_size : Nat) : QClient :=
  { client with
    store := fun n =>
      if n = collection_name then some ⟨vector_size, []⟩
      else client.store n }

/-- Server semantics of upserting one point: overwrite the point with the
same id if present, append otherwise. -/
def upsertPoint (col : List QPoint) (p : QPoint) : List QPoint :=
  if col.any (fun q => q.id == p.id) then
    col.map (fun q => if q.id == p.id then p else q)
  else col ++ [p]

/-- The payload built for point `i` by `upload_documents_with_metadata`
(note: no `page_number` key is stored). -/
def payloadOfChunk (c : ChunkObj) : Payload :=
  { text := some c.text, source := some c.source,
    chunk_index := some c.chunk_index, length := some c.length,
    page_number := none }

/-- `upload_documents_with_metadata`: point ids are the per-call indices
`0 .. len(chunk_objs) - 1`; points are upserted (in batches of 100, which
does not change the resulting state).  The source indexes `chunk_objs[i]`
and `embeddings[i]` over `range(len(chunk_objs))`, assuming equal lengths
(it raises `IndexError` otherwise); this is modelled by `zip`.  Returns
`none` when the collection does not exist (server error). -/
def upload_documents_with_metadata (client : QClient)
    (collection_name : String) (chunk_objs : List ChunkObj)
    (embeddings : List Emb) : Option QClient :=
  match client.store collection_name with
  | none => none
  | some col =>
    let points := (chunk_objs.zip embeddings).enum.map
      (fun pe => QPoint.mk pe.1 pe.2.2 (payloadOfChunk pe.2.1))
    some { client with
      store := fun n =>
        if n = collection_name then
          some { col with points := points.foldl upsertPoint col.points }
        else client.store n }

/-- A formatted result of `search_documents_with_metadata`. -/
structure SearchResult where
  text : PyStr
  source : String
  chunk_index : Nat
  page_number : Option Nat
  score : ℚ
deriving DecidableEq

/-- Models Python `round(score, 4)` over the rationals. -/
def round4 (s : ℚ) : ℚ := (⌊s * 10000 + 1 / 2⌋ : ℚ) / 10000

/-- Formatting of one hit: `r.payload['text']` raises `KeyError` when the
key is absent; `source`, `chunk_index` and `page_number` use `.get` with
defaults. -/
def formatResult (r : ScoredPoint) : Except QErr SearchResult :=
  match r.payload.text with
  | none => .error .keyError
  | some t =>
    .ok { text := t, source := r.payload.source.getD "Unknown",
          chunk_index := r.payload.chunk_index.getD 0,
          page_number := r.payload.page_number,
          score := round4 r.score }

/-- `search_documents_with_metadata`: empty list for a missing collection,
otherwise the formatted server hits. -/
def search_documents_with_metadata (client : QClient)
    (collection_name : String) (query_embedding : Emb) (top_k : Nat) :
    Except QErr (List SearchResult) :=
  if collection_exists client collection_name = false then .ok []
  else (client.searchFn collection_name query_embedding top_k).mapM formatResult

/-- `search_documents` (legacy): the `text` field of each metadata result. -/
def search_documents (client : QClient) (collection_name : String)
    (query_embedding : Emb) (top_k : Nat) : Except QErr (List PyStr) :=
  match search_documents_with_metadata client collection_name
      query_embedding top_k with
  | .error e => .error e
  | .ok rs => .ok (rs.map (fun r => r.text))

/-! ## backend/main.py — the `/upload` pipeline

`extract_text_with_pages` wraps external parsers (PyPDF2, python-docx,
utf-8 decoding), so a file is modelled together with its extraction
result.  The vector-store side effects of the success path are modelled
by the qdrant_utils definitions above; `upload_docs` here returns the
response value, whose error/success status is what C7 is about. -/

structure IngestFile where
  filename : String
  raw_text : PyStr
  page_texts : List (Nat × PyStr)
deriving DecidableEq

/-- The per-file page loop of `upload_docs`: clean each page, skip empty
cleans, chunk with `chunk_size=500, overlap=50`, and tag chunks with their
page number. -/
def pageChunksOf (page_texts : List (Nat × PyStr)) : List (Nat × PyStr) :=
  page_texts.foldl
    (fun acc pt =>
      let cleaned := clean_text pt.2
      if cleaned = [] then acc
      else acc ++ (chunk_by_sentences cleaned 500 50).map (fun c => (pt.1, c)))
    []

inductive UploadResult where
  | error (message : String)
  | success (chunks : Nat) (files_processed : Nat)
deriving DecidableEq

def UploadResult.isError : UploadResult → Bool
  | .error _ => true
  | .success _ _ => false

/-- One iteration of the file loop of `upload_docs`: skip a file with no
extracted text or no chunks (`continue`); otherwise extend the global
chunk-object and embedding lists (embeddings via `get_embeddings_batch`
with `batch_size=100`). -/
def processFileStep (batchOk : Nat → Bool) (fBatch : PyStr → Emb)
    (fItem : PyStr → Option Emb) (acc : List ChunkObj × List Emb)
    (f : IngestFile) : List ChunkObj × List Emb :=
  if f.raw_text = [] then acc
  else
    let pcs := pageChunksOf f.page_texts
    if pcs = [] then acc
    else
      let objs := pcs.enum.map
        (fun p => create_chunk_with_metadata p.2.2 f.filename p.1 (some p.2.1))
      let embs := get_embeddings_batch (pcs.map (fun p => p.2))
        batchOk fBatch fItem 100
      (acc.1 ++ objs, acc.2 ++ embs)

/-- The file loop of `upload_docs`. -/
def processFiles (batchOk : Nat → Bool) (fBatch : PyStr → Emb)
    (fItem : PyStr → Option Emb) (files : List IngestFile) :
    List ChunkObj × List Emb :=
  files.foldl (processFileStep batchOk fBatch fItem) ([], [])

/-- The `/upload` endpoint response: error when no files were given, error
`"No valid content found in uploaded files"` when no embeddings were
produced, success with chunk and file counts otherwise. -/
def upload_docs (batchOk : Nat → Bool) (fBatch : PyStr → Emb)
    (fItem : PyStr → Option Emb) (files : List IngestFile) : UploadResult :=
  if files = [] then .error "No files provided"
  else
    let all := processFiles batchOk fBatch fItem files
    if all.2 = [] then .error "No valid content found in uploaded files"
    else .success all.1.length files.length

/-! ## generator.py and the `/generate-stream` code events

The chat service is an external collaborator: for a given prompt, the
synchronous mode returns a full text (`complete`), and the streaming mode
a sequence of chunks whose optional `delta.content` fields are modelled
directly (`streamDeltas`). -/

structure GenService where
  complete : PyStr → PyStr
  streamDeltas : PyStr → List (Option PyStr)

/-- The prompt built identically by `generate_code` and
`generate_code_stream`. -/
def buildGenPrompt (context query : PyStr) : PyStr :=
  "Reference:\n".toList ++ context ++ "\n\nInstruction:\n".toList ++ query ++
  "\n\nGenerate code as per the reference and instruction.".toList

/-- `generate_code` (non-streaming): one call, full response content. -/
def generate_code (svc : GenService) (context query : PyStr) : PyStr :=
  svc.complete (buildGenPrompt context query)

/-- `generate_code_stream`: yield each chunk's `delta.content` when it is
truthy (present and non-empty). -/
def generate_code_stream (svc : GenService) (context query : PyStr) :
    List PyStr :=
  (svc.streamDeltas (buildGenPrompt context query)).filterMap
    (fun d => match d with
      | some c => if c = [] then none else some c
      | none => none)

/-- A server-sent event of the `/generate-stream` protocol. -/
inductive SSEEvent where
  | status (message : PyStr)
  | sources (n : Nat)
  | code (content : PyStr)
  | done
  | error (message : PyStr)
deriving DecidableEq

/-- The code-fragment portion of `event_generator` in `/generate-stream`:
each yielded fragment is wrapped in a `code` event. -/
def generate_stream_code_events (svc : GenService)
    (context strict_prompt : PyStr) : List SSEEvent :=
  (generate_code_stream svc context strict_prompt).map SSEEvent.code

/-- The contents of the `code` events of a stream, in arrival order. -/
def codeContents (evs : List SSEEvent) : List PyStr :=
  evs.filterMap (fun e => match e with
    | .code c => some c
    | _ => none)

/-! ## Specification predicates and concrete fixtures -/

/-- The nonempty suffixes of `c₁`, of length at most `maxLen`, that are
also prefixes of `c₂`: the candidate "overlapping regions" between two
consecutive chunks in the sense of the specification. -/
def sharedRegions (c₁ c₂ : PyStr) (maxLen : Nat) : List PyStr :=
  c₁.tails.filter (fun r => !r.isEmpty && decide (r.length ≤ maxLen) && r.isPrefixOf c₂)

/-- The overlap relation that `chunk_by_sentences` actually guarantees
between consecutive output chunks: the later chunk is the space-join of a
(possibly empty) list `ovs` of carried-over sentences followed by at least
one further sentence, all of them sentences of the input; when `ovs` is
nonempty, the summed character count of its sentences (separators not
counted) is at most the configured overlap and its join is a suffix of
the earlier chunk and a prefix of the later one. -/
def OvChain (ov : Int) (S : List PyStr) (c₁ c₂ : PyStr) : Prop :=
  ∃ ovs rest : List PyStr, rest ≠ [] ∧ (∀ s ∈ ovs, s ∈ S) ∧
    (∀ s ∈ rest, s ∈ S) ∧ c₂ = joinSp (ovs ++ rest) ∧
    (ovs = [] ∨ ((sumLens ovs : Int) ≤ ov ∧ joinSp ovs <:+ c₁ ∧
      joinSp ovs <+: c₂))

/-- Loop invariant tying the last closed chunk to the open chunk: the open
sentence list starts with the carried-over sentences of the last close. -/
def LinkInv (ov : Int) (chunks cur : List PyStr) : Prop :=
  ∀ c₁, chunks.getLast? = some c₁ →
    ∃ ovs rest : List PyStr, cur = ovs ++ rest ∧ rest ≠ [] ∧
      (ovs = [] ∨ ((sumLens ovs : Int) ≤ ov ∧ joinSp ovs <:+ c₁))

/-- A client whose server has no collections. -/
def emptyClient : QClient := ⟨fun _ => none, fun _ _ _ => []⟩

/-- Fixture for the double-upload scenario: a fresh collection named as in
the backend (`COLLECTION_NAME = "reference_docs"`). -/
def clientC2 : QClient := create_collection emptyClient "reference_docs" 1

def chunkA : ChunkObj := create_chunk_with_metadata "Doc A.".toList "a.txt" 0 none

def chunkB : ChunkObj := create_chunk_with_metadata "Doc B.".toList "b.txt" 0 none

/-- A deterministic generation stub: the streamed fragments (including an
absent and an empty delta) concatenate to the synchronous response. -/
def stubGen : GenService :=
  { complete := fun _ => "ab".toList,
    streamDeltas := fun _ => [some "a".toList, none, some [], some "b".toList] }

/-! ## Theorems -/

/-- C3 counterexample: on the empty input text (with the source's default
configuration 500/50), `chunk_by_sentences` returns one empty chunk, not
an empty sequence: `re.split` on the empty string yields `[""]`, and the
final `if current_chunk` test sees the non-empty list `[""]`. -/
theorem chunk_empty_cx :
    chunk_by_sentences [] 500 50 = [[]] ∧
    chunk_by_sentences [] 500 50 ≠ ([] : List PyStr) := by
  decide

/-- C3 amended: for the empty input text, `chunk_by_sentences` returns the
one-element sequence containing the empty chunk, for every configuration
of chunk_size and overlap. -/
theorem chunk_empty_amended (chunk_size overlap : Int) :
    chunk_by_sentences [] chunk_size overlap = [[]] := by
  simp [chunk_by_sentences, splitSentences, splitSentAux, chunkLoop, joinSp]

/-- C10: the legacy `search_documents` is exactly the `text`-field
projection of `search_documents_with_metadata`, in the same order (and it
propagates the same error when formatting fails). -/
theorem search_documents_is_projection (client : QClient)
    (collection_name : String) (query_embedding : Emb) (top_k : Nat) :
    search_documents client collection_name query_embedding top_k
      = (search_documents_with_metadata client collection_name
          query_embedding top_k).map (fun rs => rs.map (fun r => r.text)) := by
  cases h : search_documents_with_metadata client collection_name
      query_embedding top_k <;>
    simp [search_documents, h, Except.map]

/-- C5: searching a collection that does not exist returns the empty list
and never raises: `collection_exists` maps the server's
`UnexpectedResponse` to `False`, and the search short-circuits to `[]`. -/
theorem search_missing_collection (client : QClient)
    (collection_name : String) (query_embedding : Emb) (top_k : Nat)
    (h : client.store collection_name = none) :
    search_documents_with_metadata client collection_name query_embedding
      top_k = .ok [] := by
  simp [search_documents_with_metadata, collection_exists, h]

/-- Witness for C5 at a concrete client with no collections. -/
theorem search_missing_collection_witness :
    search_documents_with_metadata emptyClient "reference_docs" [] 3
      = .ok [] :=
  search_missing_collection emptyClient "reference_docs" [] 3 rfl

/-- C2 evaluation at the failing input: uploading one chunk (`chunkA`,
vector `[1]`) and then, in a second call, another chunk (`chunkB`, vector
`[2]`) into the same collection.  Both calls assign point id 0, so after
the second call the collection holds only `chunkB`'s record: the first
call's record has been silently overwritten. -/
theorem upload_twice_overwrites :
    (upload_documents_with_metadata clientC2 "reference_docs" [chunkA]
        [[1]]).map
      (fun c1 => (c1.store "reference_docs").map QCollection.points)
      = some (some [⟨0, [1], payloadOfChunk chunkA⟩]) ∧
    (upload_documents_with_metadata clientC2 "reference_docs" [chunkA]
        [[1]]).bind
      (fun c1 =>
        (upload_documents_with_metadata c1 "reference_docs" [chunkB]
            [[2]]).map
          (fun c2 => (c2.store "reference_docs").map QCollection.points))
      = some (some [⟨0, [2], payloadOfChunk chunkB⟩]) := by
  constructor <;> rfl

/-- Helper: extracting the `code` contents of a pure code-event stream. -/
theorem codeContents_map_code (l : List PyStr) :
    codeContents (l.map SSEEvent.code) = l := by
  induction l with
  | nil => rfl
  | cons c t ih => simp [codeContents] at ih ⊢; exact ih

/-- Helper: dropping the falsy (absent or empty) fragments does not change
the concatenation of the streamed fragments. -/
theorem join_filterTruthy (ds : List (Option PyStr)) :
    (ds.filterMap (fun d => match d with
      | some c => if c = [] then none else some c
      | none => none)).flatten
      = (ds.map (fun d => d.getD [])).flatten := by
  induction ds with
  | nil => rfl
  | cons d t ih =>
    cases d with
    | none => simpa using ih
    | some c =>
      by_cases hc : c = [] <;> simp [hc, ih]

/-- C9: when the generation service is deterministic and its streamed
fragments concatenate to its synchronous response (the service contract),
the concatenation of all `code` fragments of the streaming path equals the
text returned by the synchronous path: the stream loop only drops falsy
(absent or empty) deltas. -/
theorem stream_concat_eq_sync (svc : GenService) (context query : PyStr)
    (h : ((svc.streamDeltas (buildGenPrompt context query)).map
        (fun d => d.getD [])).flatten
      = svc.complete (buildGenPrompt context query)) :
    (codeContents (generate_stream_code_events svc context query)).flatten
      = generate_code svc context query := by
  rw [generate_stream_code_events, codeContents_map_code,
    generate_code_stream, join_filterTruthy, h, generate_code]

/-- Witness for C9 at the concrete deterministic stub. -/
theorem stream_concat_eq_sync_witness :
    (codeContents (generate_stream_code_events stubGen "ctx".toList
        "q".toList)).flatten
      = generate_code stubGen "ctx".toList "q".toList :=
  stream_concat_eq_sync stubGen "ctx".toList "q".toList (by decide)

/-- C8 counterexample: `clean_text` collapses whitespace before removing
disallowed characters, so removing `'@'` from `"a @ b"` leaves two
adjacent spaces in the output. -/
theorem clean_text_cx :
    clean_text "a @ b".toList = "a  b".toList ∧
    [' ', ' '] <:+: clean_text "a @ b".toList := by
  decide

/-- Helper: any whitespace character in the output of whitespace
collapsing is the single space character. -/
theorem space_of_mem_collapse :
    ∀ (l : List Char) (b : Bool) (c : Char),
      c ∈ collapseWSAux b l → isPySpace c = true → c = ' ' := by
  intro l
  induction l with
  | nil => intro b c hc _; simp [collapseWSAux] at hc
  | cons d rest ih =>
    intro b c hc hsp
    by_cases hd : isPySpace d
    · cases b with
      | true =>
        simp only [collapseWSAux, hd, if_true] at hc
        exact ih true c hc hsp
      | false =>
        simp [collapseWSAux, hd] at hc
        rcases hc with hc | hc
        · exact hc
        · exact ih true c hc hsp
    · simp [collapseWSAux, hd] at hc
      rcases hc with hc | hc
      · subst hc; exact absurd hsp (by simpa using hd)
      · exact ih false c hc hsp

/-- Helper: stripping only removes characters. -/
theorem mem_pyStrip (c : Char) (l : List Char) (h : c ∈ pyStrip l) :
    c ∈ l := by
  rw [pyStrip, List.mem_reverse] at h
  have h2 := (List.dropWhile_suffix isPySpace).sublist.subset h
  rw [List.mem_reverse] at h2
  exact (List.dropWhile_suffix isPySpace).sublist.subset h2

/-- Helper: the head of `dropWhile p` fails `p`. -/
theorem head?_dropWhile_not (p : Char → Bool) :
    ∀ (l : List Char) (c : Char), (l.dropWhile p).head? = some c →
      p c = false := by
  intro l
  induction l with
  | nil => intro c hc; simp [List.dropWhile] at hc
  | cons d rest ih =>
    intro c hc
    by_cases hd : p d
    · rw [List.dropWhile_cons_of_pos hd] at hc
      exact ih c hc
    · rw [List.dropWhile_cons_of_neg hd] at hc
      simp at hc
      subst hc
      simpa using hd

/-- Helper: the first character of a stripped string is not whitespace. -/
theorem pyStrip_headD_not_space (l : List Char) (d : Char)
    (hd : isPySpace d = false) :
    isPySpace ((pyStrip l).headD d) = false := by
  obtain ⟨pre, hpre⟩ :
      (l.dropWhile isPySpace).reverse.dropWhile isPySpace
        <:+ (l.dropWhile isPySpace).reverse :=
    List.dropWhile_suffix isPySpace
  cases hk : (l.dropWhile isPySpace).reverse.dropWhile isPySpace with
  | nil => simp [pyStrip, hk, hd]
  | cons a t =>
    rw [hk] at hpre
    have h1 : (pyStrip l).head? = (a :: t).getLast? := by
      rw [pyStrip, hk, List.head?_reverse]
    have h2 : (a :: t).getLast? = (l.dropWhile isPySpace).head? := by
      have h3 : (pre ++ (a :: t)).getLast? = (a :: t).getLast? :=
        List.getLast?_append_of_ne_nil pre (by simp)
      rw [hpre, List.getLast?_reverse] at h3
      exact h3.symm
    obtain ⟨c, hc⟩ : ∃ c, (a :: t).getLast? = some c := by
      have h4 : (a :: t).getLast? ≠ none := by
        simp [List.getLast?_eq_none_iff]
      cases h5 : (a :: t).getLast? with
      | none => exact absurd h5 h4
      | some c => exact ⟨c, rfl⟩
    have hc2 : isPySpace c = false :=
      head?_dropWhile_not _ _ _ (h2 ▸ hc)
    rw [List.headD_eq_head?, h1, hc]
    simpa using hc2

/-- Helper: the last character of a stripped string is not whitespace. -/
theorem pyStrip_getLastD_not_space (l : List Char) (d : Char)
    (hd : isPySpace d = false) :
    isPySpace ((pyStrip l).getLastD d) = false := by
  have h1 : (pyStrip l).getLast?
      = ((l.dropWhile isPySpace).reverse.dropWhile isPySpace).head? := by
    rw [pyStrip, List.getLast?_reverse]
  rw [List.getLastD_eq_getLast?, h1]
  cases hh : ((l.dropWhile isPySpace).reverse.dropWhile isPySpace).head? with
  | none => simpa using hd
  | some a => simpa using head?_dropWhile_not _ _ _ hh

/-- C8 amended: `clean_text` collapses whitespace runs, then removes
characters outside the allow-list, then trims; because the removal happens
after the collapsing, the output can contain two adjacent spaces.  What
does hold for every input: every output character is in the allow-list,
the only whitespace character in the output is the single space, and the
output has no leading or trailing whitespace. -/
theorem clean_text_amended (text : PyStr) :
    (clean_text text).all allowedChar = true ∧
    (clean_text text).all (fun c => !(isPySpace c) || c == ' ') = true ∧
    isPySpace ((clean_text text).headD 'x') = false ∧
    isPySpace ((clean_text text).getLastD 'x') = false := by
  refine ⟨?_, ?_, ?_, ?_⟩
  · rw [List.all_eq_true]
    intro c hc
    rw [clean_text] at hc
    have h2 := mem_pyStrip _ _ hc
    exact (List.mem_filter.mp h2).2
  · rw [List.all_eq_true]
    intro c hc
    rw [clean_text] at hc
    have h2 := mem_pyStrip _ _ hc
    have h3 := (List.mem_filter.mp h2).1
    rw [collapseWS] at h3
    by_cases hsp : isPySpace c
    · have h4 := space_of_mem_collapse _ _ _ h3 (by simpa using hsp)
      simp [h4]
    · simp [hsp]
  · rw [clean_text]
    exact pyStrip_headD_not_space _ _ (by decide)
  · rw [clean_text]
    exact pyStrip_getLastD_not_space _ _ (by decide)

/-- Helper: the batch loop is total — one output vector per input text. -/
theorem embBatches_length {α : Type} (bs : Nat) (hbs : 0 < bs)
    (batchOk : Nat → Bool) (fB : α → Emb) (fI : α → Option Emb) :
    ∀ (n : Nat) (l : List α), l.length = n → ∀ bn,
      (embBatches bs batchOk fB fI bn l).length = l.length := by
  intro n
  induction n using Nat.strong_induction_on with
  | _ n ih =>
    intro l hl bn
    cases l with
    | nil => simp [embBatches]
    | cons t ts =>
      rw [embBatches, dif_neg hbs.ne']
      have hrec := ih ((t :: ts).drop bs).length
        (by rw [← hl]; simp [List.length_drop]; omega)
        ((t :: ts).drop bs) rfl (bn + 1)
      cases hba : batchOk bn <;>
        simp [hba, List.length_append, hrec, List.length_take,
          List.length_drop] <;>
        omega

/-- Helper: the i-th output of the batch loop comes from the i-th input:
the batch request's vector when the item's batch succeeded, the per-item
fallback otherwise. -/
theorem embBatches_getElem {α : Type} (bs : Nat) (hbs : 0 < bs)
    (batchOk : Nat → Bool) (fB : α → Emb) (fI : α → Option Emb) :
    ∀ (n : Nat) (l : List α), l.length = n → ∀ (bn i : Nat),
      (embBatches bs batchOk fB fI bn l)[i]?
        = (l[i]?).map (fun t =>
            if batchOk (bn + i / bs) then fB t else embedItemFallback fI t) := by
  intro n
  induction n using Nat.strong_induction_on with
  | _ n ih =>
    intro l hl bn i
    cases l with
    | nil => simp [embBatches]
    | cons t ts =>
      rw [embBatches, dif_neg hbs.ne']
      have hseglen : (if batchOk bn then ((t :: ts).take bs).map fB
          else ((t :: ts).take bs).map (embedItemFallback fI)).length
          = min bs (t :: ts).length := by
        cases hba : batchOk bn <;> simp [hba, List.length_take]
      rw [List.getElem?_append]
      by_cases hi : i < min bs (t :: ts).length
      · rw [if_pos (by rw [hseglen]; omega)]
        have hib : i < bs := by omega
        have hdiv : bn + i / bs = bn := by rw [Nat.div_eq_of_lt hib]; omega
        rw [hdiv]
        cases hba : batchOk bn
        · rw [if_neg (by simp [hba]), List.getElem?_map]
          simp [List.getElem?_take, hib, hba]
        · rw [if_pos (by simp [hba]), List.getElem?_map]
          simp [List.getElem?_take, hib, hba]
      · rw [if_neg (by rw [hseglen]; omega)]
        rw [hseglen]
        by_cases hbig : (t :: ts).length ≤ bs
        · have hd0 : (t :: ts).drop bs = [] :=
            List.drop_eq_nil_of_le (by omega)
          have hnone : (t :: ts)[i]? = none :=
            List.getElem?_eq_none (by omega)
          rw [hd0, hnone]
          simp [embBatches]
        · have hrec := ih ((t :: ts).drop bs).length
            (by rw [← hl]; simp [List.length_drop]; omega)
            ((t :: ts).drop bs) rfl (bn + 1) (i - bs)
          have hmin : min bs (t :: ts).length = bs := by omega
          rw [hmin, hrec, List.getElem?_drop]
          have hieq : bs + (i - bs) = i := by omega
          rw [hieq]
          have h6 : i / bs = (i - bs) / bs + 1 := by
            conv_lhs => rw [← hieq, Nat.add_comm]
            rw [Nat.add_div_right _ hbs]
          have h7 : bn + 1 + (i - bs) / bs = bn + i / bs := by
            rw [h6]; ring
          rw [h7]

/-- C1: the batch embedder is total and order-preserving for every
positive batch size, regardless of batch-level or item-level failures:
it returns exactly one vector per input text, and the i-th output is a
function of the i-th input text alone (the batch vector when text i's
batch request succeeded, the per-item fallback otherwise). -/
theorem get_embeddings_batch_order {α : Type} (texts : List α)
    (batchOk : Nat → Bool) (fBatch : α → Emb) (fItem : α → Option Emb)
    (batch_size : Nat) (hbs : 0 < batch_size) :
    (get_embeddings_batch texts batchOk fBatch fItem batch_size).length
      = texts.length ∧
    ∀ i : Nat,
      (get_embeddings_batch texts batchOk fBatch fItem batch_size)[i]?
        = (texts[i]?).map (fun t =>
            if batchOk (i / batch_size) then fBatch t
            else embedItemFallback fItem t) := by
  constructor
  · exact embBatches_length batch_size hbs batchOk fBatch fItem
      texts.length texts rfl 0
  · intro i
    have h := embBatches_getElem batch_size hbs batchOk fBatch fItem
      texts.length texts rfl 0 i
    simpa using h

/-- Witness for C1: three texts, batch size 2, second batch failing. -/
theorem get_embeddings_batch_order_witness :
    0 < 2 ∧
    (get_embeddings_batch ["a", "b", "c"] (fun n => n == 0)
        (fun _ => [1]) (fun _ => none) 2).length = 3 :=
  ⟨by decide,
    (get_embeddings_batch_order ["a", "b", "c"] (fun n => n == 0)
        (fun _ => [1]) (fun _ => none) 2 (by decide)).1⟩

/-- C6 counterexample: when both the batch request and the per-item
request fail, the embedder appends the bare `[0.0] * 1536` placeholder —
there is no per-item status anywhere in the return value — and the result
is bit-for-bit identical to the one produced when the item request
legitimately returns a zero embedding.  The placeholder is therefore not
flagged and is indistinguishable from a valid vector. -/
theorem silent_zero_vector_cx :
    get_embeddings_batch ["t"] (fun _ => false) (fun _ => [])
        (fun _ => none) 1 = [zeroVec] ∧
    get_embeddings_batch ["t"] (fun _ => false) (fun _ => [])
        (fun _ => some zeroVec) 1
      = get_embeddings_batch ["t"] (fun _ => false) (fun _ => [])
          (fun _ => none) 1 := by
  constructor <;> simp [get_embeddings_batch, embBatches, embedItemFallback]

/-- C6 amended: when the batch request of text i's batch fails and the
per-item request for text i also fails, the i-th output is exactly the
unflagged zero vector of dimension 1536 (the return value carries no
per-item status; explicit flagging is deferred to the reimplementation
per the design notes). -/
theorem embed_item_failure_silent {α : Type} (texts : List α)
    (batchOk : Nat → Bool) (fBatch : α → Emb) (fItem : α → Option Emb)
    (batch_size : Nat) (hbs : 0 < batch_size) (i : Nat) (t : α)
    (ht : texts[i]? = some t) (hb : batchOk (i / batch_size) = false)
    (hf : fItem t = none) :
    (get_embeddings_batch texts batchOk fBatch fItem batch_size)[i]?
      = some zeroVec := by
  have h := embBatches_getElem batch_size hbs batchOk fBatch fItem
    texts.length texts rfl 0 i
  simp only [get_embeddings_batch]
  rw [h]
  simp [ht, hb, embedItemFallback, hf]

/-- Witness for the amended C6 at a concrete failing item. -/
theorem embed_item_failure_silent_witness :
    (get_embeddings_batch ["t"] (fun _ => false) (fun _ => [])
        (fun _ => none) 1)[0]? = some zeroVec :=
  embed_item_failure_silent ["t"] (fun _ => false) (fun _ => [])
    (fun _ => none) 1 (by decide) 0 "t" rfl rfl rfl

/-- Helper: a skipped file leaves the upload accumulator unchanged. -/
theorem processFileStep_skip (batchOk : Nat → Bool) (fBatch : PyStr → Emb)
    (fItem : PyStr → Option Emb) (acc : List ChunkObj × List Emb)
    (f : IngestFile)
    (h : f.raw_text = [] ∨ pageChunksOf f.page_texts = []) :
    processFileStep batchOk fBatch fItem acc f = acc := by
  rcases h with h1 | h1
  · rw [processFileStep, if_pos h1]
  · rw [processFileStep]
    by_cases hraw : f.raw_text = []
    · rw [if_pos hraw]
    · rw [if_neg hraw]
      simp [h1]

/-- Helper: when every file is skipped, the upload pipeline accumulates
no chunk objects and no embeddings. -/
theorem processFiles_nothing (batchOk : Nat → Bool) (fBatch : PyStr → Emb)
    (fItem : PyStr → Option Emb) :
    ∀ files : List IngestFile,
      (∀ f ∈ files, f.raw_text = [] ∨ pageChunksOf f.page_texts = []) →
      processFiles batchOk fBatch fItem files = ([], []) := by
  intro files
  induction files with
  | nil => intro _; rfl
  | cons f fs ih =>
    intro h
    rw [processFiles, List.foldl_cons,
      processFileStep_skip _ _ _ _ _ (h f (by simp))]
    have h2 := ih (fun g hg => h g (by simp [hg]))
    rw [processFiles] at h2
    exact h2

/-- C7: an ingest run in which every file yields no extracted text or no
chunks returns an error-status result — never a success — and, when at
least one file was given, the structured "no valid content" failure. -/
theorem upload_docs_no_valid_content (batchOk : Nat → Bool)
    (fBatch : PyStr → Emb) (fItem : PyStr → Option Emb)
    (files : List IngestFile)
    (h : ∀ f ∈ files, f.raw_text = [] ∨ pageChunksOf f.page_texts = []) :
    (upload_docs batchOk fBatch fItem files).isError = true ∧
    (files ≠ [] → upload_docs batchOk fBatch fItem files
      = .error "No valid content found in uploaded files") := by
  have hp := processFiles_nothing batchOk fBatch fItem files h
  by_cases hf : files = []
  · subst hf
    exact ⟨rfl, fun hne => absurd rfl hne⟩
  · constructor <;> simp [upload_docs, hf, hp, UploadResult.isError]

/-- Witness for C7: one file whose extraction produced nothing. -/
theorem upload_docs_no_valid_content_witness :
    upload_docs (fun _ => true) (fun _ => []) (fun _ => none)
        [⟨"a.txt", [], []⟩]
      = .error "No valid content found in uploaded files" :=
  (upload_docs_no_valid_content (fun _ => true) (fun _ => [])
      (fun _ => none) [⟨"a.txt", [], []⟩]
      (fun f hf => by
        rw [List.mem_singleton] at hf
        subst hf
        exact Or.inl rfl)).2 (by simp)

/-- Helper: joining a decomposed sentence list inserts one separator. -/
theorem joinSp_append (xs ys : List PyStr) (hx : xs ≠ []) (hy : ys ≠ []) :
    joinSp (xs ++ ys) = joinSp xs ++ ' ' :: joinSp ys := by
  induction xs with
  | nil => exact absurd rfl hx
  | cons a xs ih =>
    cases xs with
    | nil =>
      cases ys with
      | nil => exact absurd rfl hy
      | cons y t => simp [joinSp]
    | cons b xs2 =>
      have ih2 := ih (by simp)
      simp only [List.cons_append] at ih2 ⊢
      calc joinSp (a :: b :: (xs2 ++ ys))
          = a ++ ' ' :: joinSp (b :: (xs2 ++ ys)) := rfl
        _ = a ++ ' ' :: (joinSp (b :: xs2) ++ ' ' :: joinSp ys) := by
            rw [ih2]
        _ = (a ++ ' ' :: joinSp (b :: xs2)) ++ ' ' :: joinSp ys := by
            simp [List.append_assoc]
        _ = joinSp (a :: b :: xs2) ++ ' ' :: joinSp ys := rfl

/-- Helper: the join of a nonempty suffix of the sentence list is a
string suffix of the join. -/
theorem joinSp_suffix (xs ys : List PyStr) (h : xs <:+ ys) (hx : xs ≠ []) :
    joinSp xs <:+ joinSp ys := by
  obtain ⟨pre, rfl⟩ := h
  cases pre with
  | nil => simp
  | cons a t =>
    rw [joinSp_append (a :: t) xs (by simp) hx]
    exact ⟨joinSp (a :: t) ++ [' '], by simp⟩

/-- Helper: the join of a nonempty prefix of the sentence list is a
string prefix of the join. -/
theorem joinSp_isPrefix (ovs rest : List PyStr) (ho : ovs ≠ [])
    (hr : rest ≠ []) : joinSp ovs <+: joinSp (ovs ++ rest) := by
  rw [joinSp_append ovs rest ho hr]
  exact ⟨' ' :: joinSp rest, rfl⟩

/-- Helper: the overlap-selection scan keeps a reversed prefix of its
input on top of its accumulator, and keeps its character budget. -/
theorem ovGo_spec (ov : Int) :
    ∀ (rest acc : List PyStr) (accLen : Int),
      accLen = (sumLens acc : Int) → (acc ≠ [] → accLen ≤ ov) →
      ∃ p : List PyStr, p <+: rest ∧
        (ovGo ov acc accLen rest).1 = p.reverse ++ acc ∧
        ((ovGo ov acc accLen rest).1 ≠ [] →
          ((sumLens (ovGo ov acc accLen rest).1 : Int) ≤ ov)) := by
  intro rest
  induction rest with
  | nil =>
    intro acc accLen hacc hle
    refine ⟨[], by simp, by simp [ovGo], ?_⟩
    intro hne
    rw [ovGo] at hne ⊢
    rw [← hacc]
    exact hle hne
  | cons s rest ih =>
    intro acc accLen hacc hle
    by_cases hc : accLen + (s.length : Int) ≤ ov
    · have hacc2 : accLen + (s.length : Int)
          = (sumLens (s :: acc) : Int) := by
        simp [sumLens] at hacc ⊢
        omega
      obtain ⟨p, hp1, hp2, hp3⟩ := ih (s :: acc) (accLen + (s.length : Int))
        hacc2 (fun _ => hc)
      have hstep : ovGo ov acc accLen (s :: rest)
          = ovGo ov (s :: acc) (accLen + (s.length : Int)) rest := by
        rw [ovGo, if_pos hc]
      refine ⟨s :: p, ?_, ?_, ?_⟩
      · obtain ⟨t, ht⟩ := hp1
        exact ⟨t, by rw [List.cons_append, ht]⟩
      · rw [hstep, hp2]
        simp [List.append_assoc]
      · rw [hstep]
        exact hp3
    · have hstep : ovGo ov acc accLen (s :: rest) = (acc, accLen) := by
        rw [ovGo, if_neg hc]
      refine ⟨[], by simp, by simp [hstep], ?_⟩
      intro hne
      rw [hstep] at hne ⊢
      rw [← hacc]
      exact hle hne

/-- Helper: the selected overlap sentences form a suffix of the closed
chunk's sentence list, and their summed character count stays within the
configured overlap when any sentence was selected. -/
theorem ovSel_spec (ov : Int) (cur : List PyStr) :
    (ovSel ov cur).1 <:+ cur ∧
    ((ovSel ov cur).1 ≠ [] → ((sumLens (ovSel ov cur).1 : Int) ≤ ov)) := by
  obtain ⟨p, hp1, hp2, hp3⟩ := ovGo_spec ov cur.reverse [] 0
    (by simp [sumLens]) (fun h => absurd rfl h)
  rw [ovSel]
  constructor
  · rw [hp2, List.append_nil]
    obtain ⟨t, ht⟩ := hp1
    refine ⟨t.reverse, ?_⟩
    rw [← List.reverse_append, ht, List.reverse_reverse]
  · exact hp3

/-- Helper: a decomposition of the open chunk into carried-over and new
sentences yields the overlap relation with the previous chunk. -/
theorem ovChain_of_decomp (ov : Int) (S : List PyStr) (c₁ : PyStr)
    (ovs rest : List PyStr) (hrest : rest ≠ [])
    (hmo : ∀ s ∈ ovs, s ∈ S) (hmr : ∀ s ∈ rest, s ∈ S)
    (hd : ovs = [] ∨ ((sumLens ovs : Int) ≤ ov ∧ joinSp ovs <:+ c₁)) :
    OvChain ov S c₁ (joinSp (ovs ++ rest)) := by
  refine ⟨ovs, rest, hrest, hmo, hmr, rfl, ?_⟩
  rcases hd with h | ⟨h1, h2⟩
  · exact Or.inl h
  · by_cases ho : ovs = []
    · exact Or.inl ho
    · exact Or.inr ⟨h1, h2, joinSp_isPrefix ovs rest ho hrest⟩

/-- Helper: closing the open chunk preserves the chunk chain. -/
theorem chain'_snoc_of_link (ov : Int) (S : List PyStr)
    (chunks cur : List PyStr) (hcur : ∀ x ∈ cur, x ∈ S)
    (hch : List.Chain' (OvChain ov S) chunks)
    (hlink : LinkInv ov chunks cur) :
    List.Chain' (OvChain ov S) (chunks ++ [joinSp cur]) := by
  rw [List.chain'_append]
  refine ⟨hch, List.chain'_singleton _, ?_⟩
  intro x hx y hy
  simp only [List.head?_cons, Option.mem_def, Option.some.injEq] at hy
  subst hy
  obtain ⟨ovs, rest, hdec, hrest, hd⟩ := hlink x (Option.mem_def.mp hx)
  rw [hdec]
  exact ovChain_of_decomp ov S x ovs rest hrest
    (fun s hs => hcur s (hdec ▸ List.mem_append_left _ hs))
    (fun s hs => hcur s (hdec ▸ List.mem_append_right _ hs)) hd

/-- Helper: the sentence loop of the chunker maintains the overlap chain
between consecutive closed chunks. -/
theorem chunkLoop_chain (csz ov : Int) (S : List PyStr) :
    ∀ (pend chunks cur : List PyStr) (curLen : Int),
      (∀ s ∈ pend, s ∈ S) → (∀ s ∈ cur, s ∈ S) →
      List.Chain' (OvChain ov S) chunks →
      LinkInv ov chunks cur →
      List.Chain' (OvChain ov S) (chunkLoop csz ov pend chunks cur curLen) := by
  intro pend
  induction pend with
  | nil =>
    intro chunks cur curLen _ hcur hch hlink
    rw [chunkLoop]
    by_cases hc : cur = []
    · rw [if_pos hc]; exact hch
    · rw [if_neg hc]
      exact chain'_snoc_of_link ov S chunks cur hcur hch hlink
  | cons s pend ih =>
    intro chunks cur curLen hpend hcur hch hlink
    rw [chunkLoop]
    by_cases hc : curLen + (s.length : Int) > csz ∧ cur ≠ []
    · rw [if_pos hc]
      apply ih
      · intro x hx; exact hpend x (by simp [hx])
      · intro x hx
        rcases List.mem_append.mp hx with hx | hx
        · exact hcur x ((ovSel_spec ov cur).1.sublist.subset hx)
        · rw [List.mem_singleton] at hx
          rw [hx]
          exact hpend s (List.mem_cons_self s pend)
      · exact chain'_snoc_of_link ov S chunks cur hcur hch hlink
      · intro c₁ hc₁
        rw [List.getLast?_concat, Option.some.injEq] at hc₁
        subst hc₁
        refine ⟨(ovSel ov cur).1, [s], rfl, by simp, ?_⟩
        by_cases ho : (ovSel ov cur).1 = []
        · exact Or.inl ho
        · exact Or.inr ⟨(ovSel_spec ov cur).2 ho,
            joinSp_suffix _ _ (ovSel_spec ov cur).1 ho⟩
    · rw [if_neg hc]
      apply ih
      · intro x hx; exact hpend x (by simp [hx])
      · intro x hx
        rcases List.mem_append.mp hx with hx | hx
        · exact hcur x hx
        · rw [List.mem_singleton] at hx
          rw [hx]
          exact hpend s (List.mem_cons_self s pend)
      · exact hch
      · intro c₁ hc₁
        obtain ⟨ovs, rest, hdec, hrest, hd⟩ := hlink c₁ hc₁
        exact ⟨ovs, rest ++ [s], by rw [hdec, List.append_assoc],
          by simp, hd⟩

/-- C4 amended: for every input text and every configuration, consecutive
chunks overlap as follows — the later chunk is the space-join of a
(possibly empty) list of carried-over sentences followed by at least one
further sentence of the input, the carried-over sentences sum (without
separators) to at most the configured overlap, and their join, when they
exist, is a suffix of the earlier chunk and a prefix of the later one.
The carried-over list can be empty, and the joined shared region can
exceed the configured overlap by its separator spaces, which is what
falsifies the claim as stated. -/
theorem chunk_by_sentences_overlap_chain (text : PyStr)
    (chunk_size overlap : Int) :
    List.Chain' (OvChain overlap (splitSentences text))
      (chunk_by_sentences text chunk_size overlap) := by
  rw [chunk_by_sentences]
  apply chunkLoop_chain
  · intro s hs; exact hs
  · intro s hs; simp at hs
  · exact List.chain'_nil
  · intro c₁ hc₁; simp at hc₁

/-- C4 counterexample: with chunk_size 6 and overlap 4 (so overlap <
chunk_size), the text `"a. b. c. d."` produces the two chunks
`"a. b. c."` and `"b. c. d."`, which share no nonempty region of length
at most 4 that is simultaneously a suffix of the first and a prefix of
the second: the actual shared region `"b. c."` has length 5, because the
overlap budget counts only sentence characters, not the separator
spaces. -/
theorem chunk_overlap_cx :
    chunk_by_sentences "a. b. c. d.".toList 6 4
      = ["a. b. c.".toList, "b. c. d.".toList] ∧
    sharedRegions "a. b. c.".toList "b. c. d.".toList 4 = [] := by
  decide

end RagCopilot

